import Mathlib

/-!
Verification of the network-diagnostics utility module (`utils.py`) of the
connectivity API: host validation, ping/traceroute execution wrappers and
their platform-specific output parsers.

Modelling conventions:
* Python strings are modelled as `String` / `List Char` (ASCII fragment; the
  parsers only inspect ASCII characters).
* Python `float` values are modelled as exact rationals `ℚ`.  Every float
  operation performed by the code (parsing a decimal literal, `count * loss
  / 100`, `int(...)` truncation) is exact in binary64 for all realistic
  magnitudes, so `ℚ` coincides with the Python semantics there; the exotic
  `inf`/`nan` literals accepted by Python's `float()` are outside the model.
* Python `int` is arbitrary precision and is modelled as `Int` (or `Nat`
  where the source value is a regex `\d+` group).
* `datetime.now().isoformat()` is modelled as an explicit clock parameter
  `now : String` threaded to the point where the code calls it.
* `subprocess.run` is modelled by an `ExecResult` parameter describing how
  the external command behaved (completed with stdout and return code,
  exceeded the wall-clock ceiling, or failed to spawn).  An uncaught Python
  exception is modelled as `Except.error`.
-/

/-- Python whitespace (ASCII fragment) as used by `str.split()` / `str.strip()`:
space, tab, newline, carriage return, vertical tab, form feed. -/
def isPySpace (c : Char) : Bool :=
  c.toNat = 32 || c.toNat = 9 || c.toNat = 10 || c.toNat = 13 || c.toNat = 11 || c.toNat = 12

/-- ASCII decimal digit test (same as Python `str.isdigit` on ASCII and as
the digit class in the module's regexes, which only ever see ASCII output). -/
def isDig (c : Char) : Bool :=
  48 ≤ c.toNat && c.toNat ≤ 57

/-- Numeric value of an ASCII digit. -/
def digitVal (c : Char) : Nat := c.toNat - 48

/-- Python `str.strip()` (whitespace on both ends). -/
def pyStrip (cs : List Char) : List Char :=
  ((cs.dropWhile isPySpace).reverse.dropWhile isPySpace).reverse

/-- Worker for `pySplit`: `cur` holds the (reversed) token being read. -/
def pySplitGo (cur : List Char) : List Char → List (List Char)
  | [] => if cur.isEmpty then [] else [cur.reverse]
  | c :: cs =>
    if isPySpace c then
      if cur.isEmpty then pySplitGo [] cs
      else cur.reverse :: pySplitGo [] cs
    else pySplitGo (c :: cur) cs

/-- Python `str.split()` with no argument: split on runs of whitespace,
discarding empty pieces. -/
def pySplit (cs : List Char) : List (List Char) := pySplitGo [] cs

/-- Split a character list on newline characters (every `'\n'` separates). -/
def splitNl : List Char → List (List Char)
  | [] => [[]]
  | c :: cs =>
    if c = '\n' then [] :: splitNl cs
    else
      match splitNl cs with
      | p :: ps => (c :: p) :: ps
      | [] => [[c]]

/-- Drop a single trailing empty segment, mirroring how `str.splitlines()`
produces no final empty line for input ending in a newline. -/
def dropTrailingEmpty (ls : List (List Char)) : List (List Char) :=
  match ls.reverse with
  | [] :: rest => rest.reverse
  | _ => ls

/-- Python `str.splitlines()`.  `subprocess.run(..., text=True)` performs
universal-newline translation, so the parsed output only contains `'\n'`
terminators; accordingly only `'\n'` is treated as a line break. -/
def splitlinesL (cs : List Char) : List (List Char) :=
  match cs with
  | [] => []
  | _ => dropTrailingEmpty (splitNl cs)

/-- Does `p` occur at the start of `l`? (used to model regex literal
matching and Python `str.startswith`). -/
def headMatches : List Char → List Char → Bool
  | [], _ => true
  | _ :: _, [] => false
  | p :: ps, c :: cs => p = c && headMatches ps cs

/-- Consume a maximal run of decimal digits, allowing the single-underscore
separators Python's numeric conversions allow (an underscore must sit
between two digits; `afterUnd` records that the previous character was such
a separator).  Returns the accumulated value, the number of digits consumed
and the remaining input; returns `none` when an underscore is misplaced,
which in Python makes the whole conversion raise `ValueError`. -/
def takeDigitsU (acc len : Nat) (afterUnd : Bool) : List Char → Option (Nat × Nat × List Char)
  | [] => if afterUnd then none else some (acc, len, [])
  | c :: cs =>
    if isDig c then takeDigitsU (10 * acc + digitVal c) (len + 1) false cs
    else if afterUnd then none
    else if c = '_' then
      if len = 0 then some (acc, len, c :: cs)
      else takeDigitsU acc len true cs
    else some (acc, len, c :: cs)

/-- Digit run that must consume the whole input and contain at least one
digit (the digits of Python `int(s)` after sign handling). -/
def pyDigitsU (cs : List Char) : Option Nat :=
  match takeDigitsU 0 0 false cs with
  | some (v, len, []) => if len = 0 then none else some v
  | _ => none

/-- Python `int(s)` after whitespace stripping: optional sign, then decimal
digits (ASCII; underscore separators allowed). `none` models `ValueError`. -/
def pyIntCore (cs : List Char) : Option Int :=
  match cs with
  | [] => none
  | c :: rest =>
    if c = '+' then (pyDigitsU rest).map (fun n => (n : Int))
    else if c = '-' then (pyDigitsU rest).map (fun n => -(n : Int))
    else (pyDigitsU (c :: rest)).map (fun n => (n : Int))

/-- Python `int(s)` on a string. -/
def pyInt (cs : List Char) : Option Int := pyIntCore (pyStrip cs)

/-- Magnitude part of Python `float(s)`: optional integer digits, optional
fraction after a dot, optional decimal exponent, with at least one mantissa
digit.  Returns the exact rational value (built through `mkRat` over the
numerator and the power-of-ten denominator). -/
def pyFloatMag (cs : List Char) : Option ℚ :=
  match takeDigitsU 0 0 false cs with
  | none => none
  | some (ip, ilen, r1) =>
    let cont : Nat × Nat × List Char → Option ℚ := fun x =>
      match x with
      | (fp, flen, r2) =>
        if ilen = 0 && flen = 0 then none
        else
          let num : Nat := ip * 10 ^ flen + fp
          let den : Nat := 10 ^ flen
          match r2 with
          | [] => some (mkRat num den)
          | e :: r3 =>
            if e = 'e' || e = 'E' then
              let withExp : Bool → List Char → Option ℚ := fun neg ds =>
                match takeDigitsU 0 0 false ds with
                | some (ev, elen, []) =>
                  if elen = 0 then none
                  else if neg then some (mkRat num (den * 10 ^ ev))
                  else some (mkRat (num * 10 ^ ev : Nat) den)
                | _ => none
              match r3 with
              | '+' :: r4 => withExp false r4
              | '-' :: r4 => withExp true r4
              | r4 => withExp false r4
            else none
    match r1 with
    | '.' :: r => (takeDigitsU 0 0 false r).bind cont
    | _ => cont (0, 0, r1)

/-- Python `float(s)` after whitespace stripping: optional sign then
magnitude.  (`inf`/`nan` literals are outside the model; no input the
claims quantify over contains them.)  `none` models `ValueError`. -/
def pyFloatCore (cs : List Char) : Option ℚ :=
  match cs with
  | [] => none
  | c :: rest =>
    if c = '+' then pyFloatMag rest
    else if c = '-' then (pyFloatMag rest).map Neg.neg
    else pyFloatMag (c :: rest)

/-- Python `float(s)` on a string. -/
def pyFloat (cs : List Char) : Option ℚ := pyFloatCore (pyStrip cs)

/-- Decimal digit character for a value below ten. -/
def digitChar (d : Nat) : Char := Char.ofNat (48 + d)

/-- Worker for `natToStr`; the fuel strictly exceeds the rendered number. -/
def natToStrAux (fuel : Nat) (n : Nat) : List Char :=
  match fuel with
  | 0 => []
  | f + 1 => if n < 10 then [digitChar n] else natToStrAux f (n / 10) ++ [digitChar (n % 10)]

/-- Python `str(n)` for a natural number: canonical decimal rendering. -/
def natToStr (n : Nat) : List Char := natToStrAux (n + 1) n

/-- Value of a list of ASCII digits read in base ten. -/
def digitsVal (ds : List Char) : Nat :=
  ds.foldl (fun a c => 10 * a + digitVal c) 0

/-!
Models of the module-level regular expressions of `utils.py`:

* `PING_RE_LINUX   = min/avg/max.* followed by an equals sign, a space and
  three slash-separated groups of digits-or-dots`
* `PING_RE_WINDOWS = Minimum = (digits)ms, Maximum = (digits)ms, Average = (digits)ms`
* `LOSS_RE         = (digits)% packet loss  OR  (digits)% perdidos`

Each is modelled by its leftmost-match `re.search` semantics.  Greedy
repetition of a character class followed by a character outside the class
matches exactly the maximal run, so the groups below are maximal runs; the
greedy dot-star of the Unix time pattern is modelled by trying the longest
newline-free gap first.
-/

/-- Characters matched by the digits-or-dots class of `PING_RE_LINUX`. -/
def isRchar (c : Char) : Bool := isDig c || c = '.'

/-- Tail of `PING_RE_LINUX` after the dot-star: an equals sign, a space and
three nonempty slash-separated digits-or-dots groups. -/
def linuxTailMatch (cs : List Char) : Option (List Char × List Char × List Char) :=
  match cs with
  | '=' :: ' ' :: r0 =>
    let g1 := r0.takeWhile isRchar
    match r0.dropWhile isRchar with
    | '/' :: r1 =>
      if g1.isEmpty then none
      else
        let g2 := r1.takeWhile isRchar
        match r1.dropWhile isRchar with
        | '/' :: r2 =>
          if g2.isEmpty then none
          else
            let g3 := r2.takeWhile isRchar
            if g3.isEmpty then none else some (g1, g2, g3)
        | _ => none
    | _ => none
  | _ => none

/-- Greedy dot-star: try the longest newline-free gap first, then shorter
ones, and run `linuxTailMatch` after the gap. -/
def linuxAfterLit (rest : List Char) : Option (List Char × List Char × List Char) :=
  let limit := (rest.takeWhile (fun c => c ≠ '\n')).length
  (List.range (limit + 1)).reverse.findSome? (fun j => linuxTailMatch (rest.drop j))

/-- `PING_RE_LINUX.search`: leftmost occurrence of the literal
`min/avg/max` whose remainder matches the rest of the pattern; returns the
three captured groups. -/
def searchPingLinux : List Char → Option (List Char × List Char × List Char)
  | [] => none
  | c :: cs =>
    if headMatches "min/avg/max".data (c :: cs) then
      match linuxAfterLit ((c :: cs).drop 11) with
      | some g => some g
      | none => searchPingLinux cs
    else searchPingLinux cs

/-- Match the whole of `PING_RE_WINDOWS` at the current position, returning
the three digit groups (Minimum, Maximum, Average). -/
def winStatsAt (cs : List Char) : Option (Nat × Nat × Nat) :=
  if headMatches "Minimum = ".data cs then
    let g1 := (cs.drop 10).takeWhile isDig
    let r1 := (cs.drop 10).dropWhile isDig
    if g1.isEmpty then none
    else if headMatches "ms, Maximum = ".data r1 then
      let g2 := (r1.drop 14).takeWhile isDig
      let r2 := (r1.drop 14).dropWhile isDig
      if g2.isEmpty then none
      else if headMatches "ms, Average = ".data r2 then
        let g3 := (r2.drop 14).takeWhile isDig
        let r3 := (r2.drop 14).dropWhile isDig
        if g3.isEmpty then none
        else if headMatches "ms".data r3 then
          some (digitsVal g1, digitsVal g2, digitsVal g3)
        else none
      else none
    else none
  else none

/-- `PING_RE_WINDOWS.search`: leftmost full match. -/
def searchPingWindows : List Char → Option (Nat × Nat × Nat)
  | [] => none
  | c :: cs =>
    match winStatsAt (c :: cs) with
    | some g => some g
    | none => searchPingWindows cs

/-- Which alternative of `LOSS_RE` matched: the English `packet loss`
branch (capture group 1) or the Spanish `perdidos` branch (group 2). -/
inductive LossAlt where
  | packetLoss
  | perdidos
deriving DecidableEq, Repr

/-- Match one alternative of `LOSS_RE` at the current position: a nonempty
digit run followed by a percent sign and the locale token. -/
def lossAt (cs : List Char) : Option (LossAlt × Nat) :=
  let ds := cs.takeWhile isDig
  let rest := cs.dropWhile isDig
  if ds.isEmpty then none
  else if headMatches "% packet loss".data rest then some (.packetLoss, digitsVal ds)
  else if headMatches "% perdidos".data rest then some (.perdidos, digitsVal ds)
  else none

/-- `LOSS_RE.search`: leftmost match of either alternative. -/
def lossSearch : List Char → Option (LossAlt × Nat)
  | [] => none
  | c :: cs =>
    match lossAt (c :: cs) with
    | some g => some g
    | none => lossSearch cs

/-- Match the tracert IPv4 pattern (four nonempty digit runs separated by
dots) at the current position, returning the matched substring. -/
def ipv4At (cs : List Char) : Option (List Char) :=
  let d1 := cs.takeWhile isDig
  match cs.dropWhile isDig with
  | '.' :: r1 =>
    if d1.isEmpty then none
    else
      let d2 := r1.takeWhile isDig
      match r1.dropWhile isDig with
      | '.' :: r2 =>
        if d2.isEmpty then none
        else
          let d3 := r2.takeWhile isDig
          match r2.dropWhile isDig with
          | '.' :: r3 =>
            if d3.isEmpty then none
            else
              let d4 := r3.takeWhile isDig
              if d4.isEmpty then none
              else some (d1 ++ ('.' :: (d2 ++ ('.' :: (d3 ++ ('.' :: d4))))))
          | _ => none
      | _ => none
  | _ => none

/-- `re.search` of the tracert IPv4 pattern: leftmost match. -/
def findIpv4 : List Char → Option (List Char)
  | [] => none
  | c :: cs =>
    match ipv4At (c :: cs) with
    | some m => some m
    | none => findIpv4 cs

/-- Match the tracert round-trip-time pattern at the current position: a
nonempty digit run, optional whitespace, then the literal `ms`; returns the
captured digit value. -/
def rttAt (cs : List Char) : Option Nat :=
  let ds := cs.takeWhile isDig
  let rest := cs.dropWhile isDig
  if ds.isEmpty then none
  else if headMatches "ms".data (rest.dropWhile isPySpace) then some (digitsVal ds)
  else none

/-- First match of the tracert round-trip-time pattern (the code only uses
the head of `re.findall`, which is the leftmost match). -/
def findRttWin : List Char → Option Nat
  | [] => none
  | c :: cs =>
    match rttAt (c :: cs) with
    | some v => some v
    | none => findRttWin cs

/-!
Model of `socket.inet_aton` (the classic "numbers-and-dots" IPv4 notation
of the C library, which Python delegates to): one to four dot-separated
numbers, each written in decimal, octal (leading zero) or hexadecimal
(leading `0x`/`0X` followed by at least one hexadecimal digit, as in the
`strtoul`-based parser of current glibc); with four parts every part must
fit a byte, with fewer parts the last part covers the remaining bytes.
Reading stops at the first character that extends neither the current
number nor the dot chain; the C parser then accepts exactly when that
character is the terminating null or C whitespace (a single trailing-
character test — everything after one whitespace character is ignored, so
`1.2.3.4 x` is accepted).  The set of C whitespace characters coincides
with `isPySpace`.  Before any of this, CPython converts the Python string
to a C string and raises an uncaught `ValueError` on an embedded null
character; that path is modelled in `is_valid_host` below. -/

/-- Numeric value of `c` as a digit of the given base, `none` when `c` is
not a digit of that base (where the C parser stops reading the number). -/
def baseVal (base : Nat) (c : Char) : Option Nat :=
  if isDig c then
    if digitVal c < base then some (digitVal c) else none
  else if base = 16 && 97 ≤ c.toNat && c.toNat ≤ 102 then some (c.toNat - 87)
  else if base = 16 && 65 ≤ c.toNat && c.toNat ≤ 70 then some (c.toNat - 55)
  else none

/-- Accumulate a run of digits of the given base. -/
def takeBase (base : Nat) (acc : Nat) : List Char → Nat × List Char
  | [] => (acc, [])
  | c :: cs =>
    match baseVal base c with
    | some v => takeBase base (acc * base + v) cs
    | none => (acc, c :: cs)

/-- Does the list start with a hexadecimal digit?  `strtoul` with base 0
reads a `0x`/`0X` prefix only when a hexadecimal digit follows; otherwise
it consumes just the `0` and reading resumes at the `x`. -/
def hexHead : List Char → Bool
  | [] => false
  | c :: _ => (baseVal 16 c).isSome

/-- Parse one number of the numbers-and-dots notation: `0x…`/`0X…` with a
following hexadecimal digit is hexadecimal, a leading `0` selects octal,
otherwise decimal; the first character must be a digit. -/
def parseCPart (cs : List Char) : Option (Nat × List Char) :=
  match cs with
  | [] => none
  | c :: rest =>
    if c = '0' then
      match rest with
      | [] => some (0, [])
      | x :: rest' =>
        if x = 'x' || x = 'X' then
          if hexHead rest' then some (takeBase 16 0 rest')
          else some (0, x :: rest')
        else some (takeBase 8 0 rest)
    else if isDig c then some (takeBase 10 (digitVal c) rest)
    else none

/-- Collect up to `k` dot-separated numbers; the chain ends at the end of
the string or, per the C parser's trailing-character test, at a whitespace
character (the rest of the string is then ignored). -/
def inetGo : Nat → List Char → Option (List Nat)
  | 0, _ => none
  | k + 1, cs =>
    match parseCPart cs with
    | none => none
    | some (v, rest) =>
      match rest with
      | [] => some [v]
      | '.' :: cs' => (inetGo k cs').map (fun vs => v :: vs)
      | r :: _ => if isPySpace r then some [v] else none

/-- Acceptance of `socket.inet_aton`. -/
def inetAtonOk (cs : List Char) : Bool :=
  match inetGo 4 cs with
  | some [a] => decide (a ≤ 4294967295)
  | some [a, b] => decide (a ≤ 255) && decide (b ≤ 16777215)
  | some [a, b, c] => decide (a ≤ 255) && decide (b ≤ 255) && decide (c ≤ 65535)
  | some [a, b, c, d] =>
    decide (a ≤ 255) && decide (b ≤ 255) && decide (c ≤ 255) && decide (d ≤ 255)
  | _ => false

/-!
Model of the domain regular expression of `is_valid_host`: one or more
characters that are ASCII letters, digits, dots or hyphens, then a dot,
then two or more ASCII letters, anchored at both ends (`re.match` plus a
final end anchor; the end anchor of Python also matches just before one
trailing newline). -/

/-- Character class of the domain pattern body. -/
def isDomainChar (c : Char) : Bool := c.isAlpha || isDig c || c = '.' || c = '-'

/-- Does the domain pattern match `cs` when the final dot of the pattern
sits at position `i`? -/
def domainSplitAt (cs : List Char) (i : Nat) : Bool :=
  match cs.drop i with
  | '.' :: suf =>
    decide (1 ≤ i) && (cs.take i).all isDomainChar &&
      decide (2 ≤ suf.length) && suf.all Char.isAlpha
  | _ => false

/-- Full match of the domain pattern against `cs` (a regular expression
accepts exactly when some split works; the alternation over split points is
that existential). -/
def domainFullMatch (cs : List Char) : Bool :=
  (List.range cs.length).any (domainSplitAt cs)

/-- The end anchor of a Python pattern without `re.MULTILINE` also matches
just before a single trailing newline. -/
def domainReMatch (cs : List Char) : Bool :=
  match cs.reverse with
  | '\n' :: r => domainFullMatch r.reverse
  | _ => domainFullMatch cs

/-- Does the string contain an embedded null character?  CPython's
conversion of the `str` argument of `socket.inet_aton` to a C string
raises `ValueError` on one, before any parsing. -/
def hasNullChar (cs : List Char) : Bool := cs.any (fun c => c.toNat == 0)

/-- `is_valid_host` of `utils.py`.  On a host with an embedded null
character, `socket.inet_aton` raises `ValueError`, which the
`except socket.error` clause does not catch, so the exception escapes the
function.  Otherwise: accept when `inet_aton` does (its failure there is
the caught `socket.error`), or when the domain regular expression
matches. -/
def is_valid_host (host : String) : Except String Bool :=
  if hasNullChar host.data then Except.error "ValueError"
  else if inetAtonOk host.data then Except.ok true
  else if domainReMatch host.data then Except.ok true
  else Except.ok false

/-! Data model of the results, mirroring the dictionaries built by
`utils.py` (and the pydantic models of `models.py`). -/

/-- The dictionary returned by `ping` and its two parse helpers. -/
structure PingResult where
  host : String
  packets_transmitted : Int
  packets_received : Int
  packet_loss : ℚ
  min_ms : ℚ
  avg_ms : ℚ
  max_ms : ℚ
  timestamp : String
deriving DecidableEq, Repr

/-- One hop dictionary produced by the traceroute parsers. -/
structure TraceHop where
  hop : Int
  host : String
  rtt_ms : Option ℚ
deriving DecidableEq, Repr

/-- Result of `platform.system().lower() == "windows"`. -/
inductive Sys where
  | windows
  | linux
deriving DecidableEq, Repr

/-- Behaviour of one `subprocess.run` invocation: normal completion with
captured stdout and return code, expiry of the wall-clock `timeout=`
ceiling (raising `subprocess.TimeoutExpired`), or an OS-level spawn
failure such as `FileNotFoundError` for a missing executable. -/
inductive ExecResult where
  | completed (stdout : String) (returncode : Int)
  | timedOut
  | spawnError (msg : String)
deriving DecidableEq, Repr

/-- The maximally-pessimistic dictionary built on every failure path of
`ping`: full loss, nothing received, all round-trip fields zero. -/
def degradedPing (host : String) (count : Int) (now : String) : PingResult :=
  { host := host
    packets_transmitted := count
    packets_received := 0
    packet_loss := 100
    min_ms := 0
    avg_ms := 0
    max_ms := 0
    timestamp := now }

/-- Python `int(...)` applied to a float: truncation toward zero. -/
def pyTrunc (q : ℚ) : Int :=
  if q < 0 then -((-q).floor) else q.floor

/-- `packets_received = count - int(count * loss / 100)` — the arithmetic
of both ping parsers, exact over `ℚ` (`count * loss` is an exact integer
and the division by 100 is modelled exactly). -/
def receivedOf (count : Int) (loss : Nat) : Int :=
  count - pyTrunc (mkRat (count * loss) 100)

/-- Numeric content extracted by `_parse_ping_linux` inside its `try`
block, in source order: the time statistics (searched first; each group is
converted by `float(...)`, whose `ValueError` aborts the block), then the
loss (group 1 of `LOSS_RE` converted by `float(...)`; when the Spanish
alternative matched, group 1 is `None` and `float(None)` raises
`TypeError`, aborting the block).  `none` models an exception reaching the
`except Exception` handler. -/
def pingLinuxNumbers (out : List Char) : Option (ℚ × ℚ × ℚ × Nat) := do
  let tstats ← match searchPingLinux out with
    | some (g1, g2, g3) => do
      let mn ← pyFloat g1
      let av ← pyFloat g2
      let mx ← pyFloat g3
      pure (mn, av, mx)
    | none => pure ((0 : ℚ), (0 : ℚ), (0 : ℚ))
  let loss ← match lossSearch out with
    | some (.packetLoss, n) => some n
    | some (.perdidos, _) => none
    | none => some 0
  pure (tstats.1, tstats.2.1, tstats.2.2, loss)

/-- `_parse_ping_linux`: build the result dictionary from the extracted
numbers, or the degraded dictionary when the `try` block raised. -/
def parse_ping_linux (output host : String) (count : Int) (now : String) : PingResult :=
  match pingLinuxNumbers output.data with
  | some (mn, av, mx, loss) =>
    { host := host
      packets_transmitted := count
      packets_received := receivedOf count loss
      packet_loss := (loss : ℚ)
      min_ms := mn
      avg_ms := av
      max_ms := mx
      timestamp := now }
  | none => degradedPing host count now

/-- Numeric content extracted by `_parse_ping_windows`: the groups of
`PING_RE_WINDOWS` are bound as `min_ms, max_ms, avg_ms` in that order, and
the loss uses `group(1) or group(2)`, so either `LOSS_RE` alternative
yields its digits.  Every conversion is `float` of a digit string, so the
`try` block of the source can never raise and the extraction is total. -/
def pingWindowsNumbers (out : List Char) : ℚ × ℚ × ℚ × Nat :=
  let tstats : ℚ × ℚ × ℚ :=
    match searchPingWindows out with
    | some (mn, mx, av) => ((mn : ℚ), (mx : ℚ), (av : ℚ))
    | none => (0, 0, 0)
  let loss : Nat :=
    match lossSearch out with
    | some (_, n) => n
    | none => 0
  (tstats.1, tstats.2.1, tstats.2.2, loss)

/-- `_parse_ping_windows`: the dictionary lists `min_ms`, then `avg_ms`,
then `max_ms`, reassigning the matched (min, max, avg) groups into their
output roles. -/
def parse_ping_windows (output host : String) (count : Int) (now : String) : PingResult :=
  match pingWindowsNumbers output.data with
  | (mn, mx, av, loss) =>
    { host := host
      packets_transmitted := count
      packets_received := receivedOf count loss
      packet_loss := (loss : ℚ)
      min_ms := mn
      avg_ms := av
      max_ms := mx
      timestamp := now }

/-- `ping(host, count)`: run the platform-specific command (behaviour given
by `exec`) under a 30-second wall-clock ceiling.  Only
`subprocess.TimeoutExpired` is caught; a spawn failure such as
`FileNotFoundError` propagates to the caller (`Except.error`).  A non-zero
return code yields the degraded dictionary without parsing. -/
def ping (sys : Sys) (exec : ExecResult) (host : String) (count : Int) (now : String) :
    Except String PingResult :=
  match exec with
  | .spawnError msg => .error msg
  | .timedOut => .ok (degradedPing host count now)
  | .completed out rc =>
    if rc ≠ 0 then .ok (degradedPing host count now)
    else
      match sys with
      | .windows => .ok (parse_ping_windows out host count now)
      | .linux => .ok (parse_ping_linux out host count now)

/-- Body of the per-line loop of `_parse_traceroute_linux`: skip blank
lines, skip lines with fewer than two whitespace tokens, read the hop
number with `int(...)`, then either emit the timeout sentinel for a `*`
second token or emit the host with the optional third-token round-trip
time; `ValueError` from either conversion skips the line. -/
def parseTraceTokensLinux : List (List Char) → Option TraceHop
  | p0 :: p1 :: rest => do
    let hopNo ← pyInt p0
    if p1 = "*".data then
      pure { hop := hopNo, host := "timeout", rtt_ms := none }
    else
      match rest with
      | [] => pure { hop := hopNo, host := String.mk p1, rtt_ms := none }
      | p2 :: _ => do
        let r ← pyFloat p2
        pure { hop := hopNo, host := String.mk p1, rtt_ms := some r }
  | _ => none

/-- The blank-line guard of the loop body, then the token handling. -/
def parseTraceLineLinux (line : List Char) : Option TraceHop :=
  if (pyStrip line).isEmpty then none
  else parseTraceTokensLinux (pySplit line)

/-- `_parse_traceroute_linux`: skip the first line, then fold the per-line
loop over the remaining lines. -/
def parse_traceroute_linux (output : String) : List TraceHop :=
  ((splitlinesL output.data).drop 1).filterMap parseTraceLineLinux

/-- Body of the per-line loop of `_parse_traceroute_windows` at 0-based
line index `i`: only lines whose stripped text starts with the decimal
rendering of `i + 1` are considered; the hop number is `int` of the first
whitespace token, the host is the first IPv4-shaped substring (its absence
gives the timeout sentinel), and the round-trip time is the first integer
preceding `ms` (searched only when a host was found). -/
def parseTraceTokensWindows (line : List Char) : List (List Char) → Option TraceHop
  | p0 :: _ => do
    let hopNo ← pyInt p0
    match findIpv4 line with
    | some ip =>
      pure { hop := hopNo, host := String.mk ip,
             rtt_ms := (findRttWin line).map (fun n => (n : ℚ)) }
    | none => pure { hop := hopNo, host := "timeout", rtt_ms := none }
  | [] => none

/-- The index filter of the loop body, then the token handling (the host
and round-trip searches run over the whole raw line). -/
def parseTraceLineWindows (i : Nat) (line : List Char) : Option TraceHop :=
  if headMatches (natToStr (i + 1)) (pyStrip line) then
    parseTraceTokensWindows line (pySplit line)
  else none

/-- `_parse_traceroute_windows`: the loop enumerates all lines (no header
skip) with their indices. -/
def parse_traceroute_windows (output : String) : List TraceHop :=
  (splitlinesL output.data).enum.filterMap (fun p => parseTraceLineWindows p.1 p.2)

/-- `traceroute(host, max_hops)`: run the platform command (behaviour given
by `exec`) under a 60-second ceiling.  Only `subprocess.TimeoutExpired` is
caught (giving the empty hop list); a spawn failure — e.g. the traceroute
binary is absent and the bare-name fallback of the locator was used —
propagates to the caller.  The return code is never inspected. -/
def traceroute (sys : Sys) (exec : ExecResult) : Except String (List TraceHop) :=
  match exec with
  | .spawnError msg => .error msg
  | .timedOut => .ok []
  | .completed out _ =>
    match sys with
    | .windows => .ok (parse_traceroute_windows out)
    | .linux => .ok (parse_traceroute_linux out)

/-- Result fields that do not come from the clock (everything except
`timestamp`). -/
def clockFreePart (r : PingResult) : String × Int × Int × ℚ × ℚ × ℚ × ℚ :=
  (r.host, r.packets_transmitted, r.packets_received, r.packet_loss,
    r.min_ms, r.avg_ms, r.max_ms)

/-- Split a character list on dots (every dot separates). -/
def splitOnDot : List Char → List (List Char)
  | [] => [[]]
  | c :: cs =>
    if c = '.' then [] :: splitOnDot cs
    else
      match splitOnDot cs with
      | p :: ps => (c :: p) :: ps
      | [] => [[c]]

/-- A textual octet: a nonempty run of decimal digits whose value is at
most 255. -/
def isOctetText (ds : List Char) : Bool :=
  !ds.isEmpty && ds.all isDig && decide (digitsVal ds ≤ 255)

/-- Modelled from the spec: a string of exactly the textual form
`a.b.c.d` with all four octets between 0 and 255. -/
def specDottedQuad (cs : List Char) : Bool :=
  match splitOnDot cs with
  | [a, b, c, d] => isOctetText a && isOctetText b && isOctetText c && isOctetText d
  | _ => false

/-- Modelled from the spec: the validator acceptance as the claim words it
— exactly the textual form of four dot-separated decimal octets each
between 0 and 255, or the domain shape (one or more characters of the
domain class, a dot, then two or more letters).  `utils.py` itself
implements the IPv4 side through `socket.inet_aton`; this definition
follows the narrower wording of the claim for comparison. -/
def specValidHost (cs : List Char) : Bool :=
  specDottedQuad cs || domainFullMatch cs

/-! Auxiliary facts about characters, digit runs and tokenisation. -/

theorem char_eq_of_toNat_eq {c d : Char} (h : c.toNat = d.toNat) : c = d :=
  Char.eq_of_val_eq (UInt32.eq_of_val_eq (Fin.ext h))

theorem isDig_digitVal_lt {c : Char} (h : isDig c = true) : digitVal c < 10 := by
  simp only [isDig, Bool.and_eq_true, decide_eq_true_eq] at h
  simp only [digitVal]; omega

theorem isDig_not_pySpace {c : Char} (h : isDig c = true) : isPySpace c = false := by
  simp only [isDig, Bool.and_eq_true, decide_eq_true_eq] at h
  simp only [isPySpace, Bool.or_eq_false_iff, decide_eq_false_iff_not]
  omega

theorem isDig_ne_plus {c : Char} (h : isDig c = true) : c ≠ '+' := by
  intro he; subst he; exact absurd h (by decide)

theorem isDig_ne_minus {c : Char} (h : isDig c = true) : c ≠ '-' := by
  intro he; subst he; exact absurd h (by decide)

theorem isDig_one_le_of_ne_zero {c : Char} (h : isDig c = true) (hz : c ≠ '0') :
    1 ≤ digitVal c := by
  have h48 : c.toNat ≠ 48 := fun he => hz (char_eq_of_toNat_eq (by rw [he]; rfl))
  simp only [isDig, Bool.and_eq_true, decide_eq_true_eq] at h
  simp only [digitVal]; omega

theorem takeDigitsU_le_aux : ∀ (cs : List Char) (acc len : Nat) (af : Bool) (v l : Nat)
    (r : List Char), takeDigitsU acc len af cs = some (v, l, r) → acc ≤ v ∧ len ≤ l := by
  intro cs
  induction cs with
  | nil =>
    intro acc len af v l r h
    cases af
    · simp only [takeDigitsU, if_neg Bool.false_ne_true, Option.some.injEq,
        Prod.mk.injEq] at h
      omega
    · simp [takeDigitsU] at h
  | cons c cs ih =>
    intro acc len af v l r h
    simp only [takeDigitsU] at h
    by_cases hdig : isDig c
    · rw [if_pos hdig] at h
      have := ih _ _ _ _ _ _ h
      omega
    · rw [if_neg hdig] at h
      cases af
      · rw [if_neg Bool.false_ne_true] at h
        by_cases hund : c = '_'
        · rw [if_pos hund] at h
          by_cases hl0 : len = 0
          · rw [if_pos hl0] at h
            simp only [Option.some.injEq, Prod.mk.injEq] at h
            omega
          · rw [if_neg hl0] at h
            have := ih _ _ _ _ _ _ h
            omega
        · rw [if_neg hund] at h
          simp only [Option.some.injEq, Prod.mk.injEq] at h
          omega
      · simp at h

theorem takeDigitsU_le {acc len : Nat} {af : Bool} {cs : List Char} {v l : Nat}
    {r : List Char} (h : takeDigitsU acc len af cs = some (v, l, r)) : acc ≤ v ∧ len ≤ l :=
  takeDigitsU_le_aux cs acc len af v l r h

theorem pyDigitsU_pos {c : Char} {t : List Char} {v : Nat}
    (hc : isDig c = true) (hz : c ≠ '0')
    (h : pyDigitsU (c :: t) = some v) : 1 ≤ v := by
  unfold pyDigitsU at h
  rw [show takeDigitsU 0 0 false (c :: t)
      = takeDigitsU (10 * 0 + digitVal c) (0 + 1) false t from by
    simp only [takeDigitsU, if_pos hc]] at h
  cases ht : takeDigitsU (10 * 0 + digitVal c) (0 + 1) false t with
  | none => rw [ht] at h; exact absurd h (by simp)
  | some res =>
    obtain ⟨v', l', r'⟩ := res
    rw [ht] at h
    have hle := takeDigitsU_le ht
    cases r' with
    | cons x xs => exact absurd h (by simp)
    | nil =>
      have hl : l' ≠ 0 := by omega
      have hv : v' = v := by simpa [hl] using h
      have := isDig_one_le_of_ne_zero hc hz
      omega

theorem all_not_imp_dropWhile_eq_self {p : Char → Bool} {l : List Char}
    (h : ∀ x ∈ l, ¬p x = true) : l.dropWhile p = l := by
  cases l with
  | nil => rfl
  | cons c cs =>
    rw [List.dropWhile_cons_of_neg]
    exact h c (by simp)

theorem pyStrip_eq_self {l : List Char} (h : ∀ x ∈ l, isPySpace x = false) :
    pyStrip l = l := by
  unfold pyStrip
  have h1 : l.dropWhile isPySpace = l :=
    all_not_imp_dropWhile_eq_self (fun x hx => by simp [h x hx])
  rw [h1]
  have h2 : l.reverse.dropWhile isPySpace = l.reverse :=
    all_not_imp_dropWhile_eq_self (fun x hx => by simp [h x (List.mem_reverse.mp hx)])
  rw [h2, List.reverse_reverse]

theorem dropWhile_eq_strip_append (l : List Char) :
    ∃ t, l.dropWhile isPySpace = pyStrip l ++ t ∧ ∀ x ∈ t, isPySpace x = true := by
  refine ⟨((l.dropWhile isPySpace).reverse.takeWhile isPySpace).reverse, ?_, ?_⟩
  · unfold pyStrip
    conv_lhs => rw [← List.reverse_reverse (l.dropWhile isPySpace)]
    rw [← List.reverse_append, List.takeWhile_append_dropWhile]
  · intro x hx
    exact List.mem_takeWhile_imp (List.mem_reverse.mp hx)

theorem pySplitGo_skip (l : List Char) :
    pySplitGo [] l = pySplitGo [] (l.dropWhile isPySpace) := by
  induction l with
  | nil => rfl
  | cons c cs ih =>
    by_cases h : isPySpace c
    · rw [List.dropWhile_cons_of_pos h, ← ih]
      simp [pySplitGo, h]
    · rw [List.dropWhile_cons_of_neg (by simp [h])]

theorem pySplitGo_cur_ne_nil (cs : List Char) : ∀ (cur : List Char), cur ≠ [] →
    pySplitGo cur cs =
      (cur.reverse ++ cs.takeWhile (fun x => !isPySpace x)) ::
        pySplitGo [] (cs.dropWhile (fun x => !isPySpace x)) := by
  induction cs with
  | nil =>
    intro cur hc
    simp [pySplitGo, List.isEmpty_iff, hc]
  | cons c cs ih =>
    intro cur hc
    by_cases h : isPySpace c
    · rw [List.takeWhile_cons_of_neg (by simp [h]),
        List.dropWhile_cons_of_neg (by simp [h])]
      simp only [pySplitGo, h, if_true, List.isEmpty_iff, hc, if_neg hc,
        List.append_nil]
      simp [pySplitGo, h, hc]
    · rw [List.takeWhile_cons_of_pos (by simp [h]),
        List.dropWhile_cons_of_pos (by simp [h])]
      simp only [pySplitGo, h, if_false]
      rw [ih (c :: cur) (by simp)]
      simp

theorem pySplit_head_token {l : List Char} {c : Char} {w : List Char}
    (hd : l.dropWhile isPySpace = c :: w) (hc : isPySpace c = false) :
    pySplit l = (c :: w.takeWhile (fun x => !isPySpace x)) ::
      pySplitGo [] (w.dropWhile (fun x => !isPySpace x)) := by
  unfold pySplit
  rw [pySplitGo_skip, hd]
  have h1 : pySplitGo [] (c :: w) = pySplitGo [c] w := by
    simp [pySplitGo, hc]
  rw [h1, pySplitGo_cur_ne_nil w [c] (by simp)]
  simp

theorem headMatches_exists {p l : List Char} (h : headMatches p l = true) :
    ∃ t, l = p ++ t := by
  induction p generalizing l with
  | nil => exact ⟨l, rfl⟩
  | cons x xs ih =>
    cases l with
    | nil => simp [headMatches] at h
    | cons c cs =>
      simp only [headMatches, Bool.and_eq_true, decide_eq_true_eq] at h
      obtain ⟨t, ht⟩ := ih h.2
      exact ⟨t, by simp [h.1, ht]⟩

theorem digitChar_isDig {d : Nat} (h : d < 10) : isDig (digitChar d) = true := by
  interval_cases d <;> decide

theorem digitChar_digitVal {d : Nat} (h : d < 10) : digitVal (digitChar d) = d := by
  interval_cases d <;> decide

theorem digitChar_ne_zero {d : Nat} (h : d < 10) (hz : d ≠ 0) : digitChar d ≠ '0' := by
  interval_cases d <;> simp_all <;> decide

theorem natToStrAux_congr : ∀ (f1 : Nat) (f2 n : Nat), n < f1 → n < f2 →
    natToStrAux f1 n = natToStrAux f2 n := by
  intro f1
  induction f1 with
  | zero => intro f2 n h1 _; omega
  | succ f ih =>
    intro f2 n h1 h2
    cases f2 with
    | zero => omega
    | succ f2' =>
      simp only [natToStrAux]
      by_cases h10 : n < 10
      · rw [if_pos h10, if_pos h10]
      · rw [if_neg h10, if_neg h10]
        have hd : n / 10 < f := by
          have := Nat.div_lt_self (by omega : 0 < n) (by omega : 1 < 10)
          omega
        have hd2 : n / 10 < f2' := by
          have := Nat.div_lt_self (by omega : 0 < n) (by omega : 1 < 10)
          omega
        rw [ih f2' (n / 10) hd hd2]

theorem natToStrAux_ne_nil : ∀ (fuel n : Nat), n < fuel → natToStrAux fuel n ≠ [] := by
  intro fuel
  cases fuel with
  | zero => intro n h; omega
  | succ f =>
    intro n _
    simp only [natToStrAux]
    by_cases h10 : n < 10
    · rw [if_pos h10]; simp
    · rw [if_neg h10]; simp

theorem natToStrAux_digits : ∀ (fuel n : Nat), n < fuel →
    ∀ c ∈ natToStrAux fuel n, isDig c = true := by
  intro fuel
  induction fuel with
  | zero => intro n h; omega
  | succ f ih =>
    intro n hn c hc
    simp only [natToStrAux] at hc
    by_cases h10 : n < 10
    · rw [if_pos h10] at hc
      simp only [List.mem_singleton] at hc
      subst hc
      exact digitChar_isDig h10
    · rw [if_neg h10] at hc
      rcases List.mem_append.mp hc with hm | hm
      · have hd : n / 10 < f := by
          have := Nat.div_lt_self (by omega : 0 < n) (by omega : 1 < 10)
          omega
        exact ih (n / 10) hd c hm
      · simp only [List.mem_singleton] at hm
        subst hm
        exact digitChar_isDig (Nat.mod_lt _ (by omega))

theorem natToStrAux_head : ∀ (fuel n : Nat), n < fuel → 1 ≤ n →
    ∀ c t, natToStrAux fuel n = c :: t → isDig c = true ∧ c ≠ '0' := by
  intro fuel
  induction fuel with
  | zero => intro n h; omega
  | succ f ih =>
    intro n hn h1 c t hct
    simp only [natToStrAux] at hct
    by_cases h10 : n < 10
    · rw [if_pos h10] at hct
      have hc : digitChar n = c := by injection hct
      subst hc
      exact ⟨digitChar_isDig h10, digitChar_ne_zero h10 (by omega)⟩
    · rw [if_neg h10] at hct
      have hd : n / 10 < f := by
        have := Nat.div_lt_self (by omega : 0 < n) (by omega : 1 < 10)
        omega
      have h1' : 1 ≤ n / 10 := by
        have := Nat.div_le_div_right (c := 10) (by omega : 10 ≤ n)
        simpa using this
      cases hh : natToStrAux f (n / 10) with
      | nil => exact absurd hh (natToStrAux_ne_nil f (n / 10) hd)
      | cons c' t' =>
        rw [hh] at hct
        simp only [List.cons_append, List.cons.injEq] at hct
        obtain ⟨hcc, _⟩ := hct
        subst hcc
        exact ih (n / 10) hd h1' c' t' hh

theorem digitsVal_append_one (ds : List Char) (c : Char) :
    digitsVal (ds ++ [c]) = 10 * digitsVal ds + digitVal c := by
  simp [digitsVal, List.foldl_append]

theorem natToStrAux_val : ∀ (fuel n : Nat), n < fuel →
    digitsVal (natToStrAux fuel n) = n := by
  intro fuel
  induction fuel with
  | zero => intro n h; omega
  | succ f ih =>
    intro n hn
    simp only [natToStrAux]
    by_cases h10 : n < 10
    · rw [if_pos h10]
      simp [digitsVal, digitChar_digitVal h10]
    · rw [if_neg h10]
      have hd : n / 10 < f := by
        have := Nat.div_lt_self (by omega : 0 < n) (by omega : 1 < 10)
        omega
      rw [digitsVal_append_one, ih (n / 10) hd,
        digitChar_digitVal (Nat.mod_lt _ (by omega))]
      omega

theorem natToStr_eq_aux {fuel n : Nat} (h : n < fuel) : natToStr n = natToStrAux fuel n :=
  natToStrAux_congr (n + 1) fuel n (by omega) h

theorem natToStr_ne_nil (n : Nat) : natToStr n ≠ [] :=
  natToStrAux_ne_nil (n + 1) n (by omega)

theorem natToStr_digits {n : Nat} : ∀ c ∈ natToStr n, isDig c = true :=
  natToStrAux_digits (n + 1) n (by omega)

theorem natToStr_head {n : Nat} (h1 : 1 ≤ n) {c : Char} {t : List Char}
    (h : natToStr n = c :: t) : isDig c = true ∧ c ≠ '0' :=
  natToStrAux_head (n + 1) n (by omega) h1 c t h

theorem natToStr_val (n : Nat) : digitsVal (natToStr n) = n :=
  natToStrAux_val (n + 1) n (by omega)

theorem splitNl_ne_nil : ∀ cs : List Char, splitNl cs ≠ [] := by
  intro cs
  cases cs with
  | nil => simp [splitNl]
  | cons c cs =>
    simp only [splitNl]
    by_cases h : c = '\n'
    · rw [if_pos h]; simp
    · rw [if_neg h]
      cases hs : splitNl cs <;> simp

theorem splitNl_header : ∀ (h : List Char) (b : List Char), '\n' ∉ h →
    splitNl (h ++ '\n' :: b) = h :: splitNl b := by
  intro h
  induction h with
  | nil =>
    intro b _
    simp [splitNl]
  | cons c cs ih =>
    intro b hn
    have hc : c ≠ '\n' := fun he => hn (by simp [he])
    have hcs : '\n' ∉ cs := fun hm => hn (by simp [hm])
    simp only [List.cons_append, splitNl, if_neg hc]
    rw [show cs.append ('\n' :: b) = cs ++ '\n' :: b from rfl, ih b hcs]

theorem dropTrailingEmpty_cons (h : List Char) (l : List (List Char)) (hl : l ≠ []) :
    dropTrailingEmpty (h :: l) = h :: dropTrailingEmpty l := by
  obtain ⟨x, xs, hx⟩ : ∃ x xs, l.reverse = x :: xs := by
    cases hr : l.reverse with
    | nil => exact absurd (by simpa using congrArg List.reverse hr) hl
    | cons x xs => exact ⟨x, xs, rfl⟩
  have hrev : (h :: l).reverse = x :: (xs ++ [h]) := by
    rw [List.reverse_cons, hx]; simp
  cases x with
  | nil =>
    unfold dropTrailingEmpty
    rw [hrev, hx]
    simp
  | cons y ys =>
    unfold dropTrailingEmpty
    rw [hrev, hx]

theorem splitlinesL_eq_dropTrailing (b : List Char) :
    splitlinesL b = dropTrailingEmpty (splitNl b) := by
  cases b with
  | nil => rfl
  | cons c cs => rfl

theorem splitlinesL_header {h b : List Char} (hn : '\n' ∉ h) :
    splitlinesL (h ++ '\n' :: b) = h :: splitlinesL b := by
  have hne : h ++ '\n' :: b ≠ [] := by simp
  rw [splitlinesL_eq_dropTrailing, splitNl_header h b hn,
    dropTrailingEmpty_cons h (splitNl b) (splitNl_ne_nil b),
    ← splitlinesL_eq_dropTrailing]

theorem pyStrip_nil_all_space {l : List Char} (h : pyStrip l = []) :
    ∀ x ∈ l, isPySpace x = true := by
  unfold pyStrip at h
  have h1 : (l.dropWhile isPySpace).reverse.dropWhile isPySpace = [] := by
    have := congrArg List.reverse h
    simpa using this
  have h2 : ∀ x ∈ (l.dropWhile isPySpace).reverse, isPySpace x = true :=
    List.dropWhile_eq_nil_iff.mp h1
  have h3 : ∀ x ∈ l.dropWhile isPySpace, isPySpace x = true :=
    fun x hx => h2 x (List.mem_reverse.mpr hx)
  intro x hx
  rw [← List.takeWhile_append_dropWhile (p := isPySpace) (l := l)] at hx
  rcases List.mem_append.mp hx with hm | hm
  · exact List.mem_takeWhile_imp hm
  · exact h3 x hm

theorem pySplitGo_nil_all_space {l : List Char} (h : ∀ x ∈ l, isPySpace x = true) :
    pySplitGo [] l = [] := by
  induction l with
  | nil => rfl
  | cons c cs ih =>
    have hc : isPySpace c = true := h c (by simp)
    simp only [pySplitGo, hc, if_true, List.isEmpty_nil, if_true]
    exact ih (fun x hx => h x (by simp [hx]))

theorem pySplit_ne_nil_strip {l : List Char} {p : List Char} {ps : List (List Char)}
    (h : pySplit l = p :: ps) : (pyStrip l).isEmpty = false := by
  cases he : (pyStrip l).isEmpty
  · rfl
  · have : pyStrip l = [] := by simpa [List.isEmpty_iff] using he
    have := pySplitGo_nil_all_space (pyStrip_nil_all_space this)
    rw [pySplit] at h
    rw [this] at h
    exact absurd h (by simp)

theorem ipv4At_head {cs m : List Char} (h : ipv4At cs = some m) :
    ∃ c t, m = c :: t ∧ isDig c = true := by
  simp only [ipv4At] at h
  by_cases he : (cs.takeWhile isDig).isEmpty = true
  · exfalso
    split at h <;> simp_all
  · obtain ⟨c, t, hct⟩ : ∃ c t, cs.takeWhile isDig = c :: t := by
      cases h' : cs.takeWhile isDig with
      | nil => rw [h'] at he; simp at he
      | cons c t => exact ⟨c, t, rfl⟩
    have hd : isDig c = true := List.mem_takeWhile_imp (by rw [hct]; simp)
    have hm : ∃ x, m = cs.takeWhile isDig ++ x := by
      split at h
      · rw [if_neg he] at h
        split at h
        · split at h
          · exact absurd h (by simp)
          · split at h
            · split at h
              · exact absurd h (by simp)
              · split at h
                · exact absurd h (by simp)
                · injection h with h'
                  subst h'
                  exact ⟨_, rfl⟩
            · exact absurd h (by simp)
        · exact absurd h (by simp)
      · exact absurd h (by simp)
    obtain ⟨x, hx⟩ := hm
    exact ⟨c, t ++ x, by rw [hx, hct]; simp, hd⟩

theorem findIpv4_head {l m : List Char} (h : findIpv4 l = some m) :
    ∃ c t, m = c :: t ∧ isDig c = true := by
  induction l with
  | nil => simp [findIpv4] at h
  | cons c cs ih =>
    simp only [findIpv4] at h
    cases hi : ipv4At (c :: cs) with
    | some m' =>
      rw [hi] at h
      have hm : m' = m := by simpa using h
      subst hm
      exact ipv4At_head hi
    | none =>
      rw [hi] at h
      exact ih h

theorem pyInt_head_pos {c : Char} {t : List Char} {v : Int}
    (hc : isDig c = true) (hz : c ≠ '0')
    (hns : ∀ x ∈ t, isPySpace x = false)
    (h : pyInt (c :: t) = some v) : 1 ≤ v := by
  unfold pyInt at h
  rw [pyStrip_eq_self (fun x hx => by
    rcases List.mem_cons.mp hx with h1 | h1
    · subst h1; exact isDig_not_pySpace hc
    · exact hns x h1)] at h
  simp only [pyIntCore] at h
  rw [if_neg (isDig_ne_plus hc), if_neg (isDig_ne_minus hc)] at h
  cases hd : pyDigitsU (c :: t) with
  | none => rw [hd] at h; exact absurd h (by simp)
  | some n =>
    rw [hd] at h
    have hv : (n : Int) = v := by simpa using h
    have := pyDigitsU_pos hc hz hd
    omega

theorem pyTrunc_of_nonneg {q : ℚ} (h : 0 ≤ q) : pyTrunc q = q.floor := by
  unfold pyTrunc
  rw [if_neg (not_lt.mpr h)]

theorem pyTrunc_nonneg {q : ℚ} (h : 0 ≤ q) : 0 ≤ pyTrunc q := by
  rw [pyTrunc_of_nonneg h]
  exact Rat.le_floor.mpr (by exact_mod_cast h)

theorem mkRat_count_loss_nonneg {count : Int} (h : 0 ≤ count) (loss : Nat) :
    0 ≤ mkRat (count * loss) 100 := by
  rw [Rat.mkRat_eq_div]
  apply div_nonneg
  · exact_mod_cast mul_nonneg h (by positivity)
  · norm_num

theorem receivedOf_le {count : Int} (h : 0 ≤ count) (loss : Nat) :
    receivedOf count loss ≤ count := by
  unfold receivedOf
  have := pyTrunc_nonneg (mkRat_count_loss_nonneg h loss)
  omega

theorem pyTrunc_zero : pyTrunc 0 = 0 := by decide

theorem receivedOf_zero (count : Int) : receivedOf count 0 = count := by
  unfold receivedOf
  rw [show ((0 : ℕ) : Int) = 0 from rfl, mul_zero,
    show mkRat 0 100 = 0 from by rw [Rat.mkRat_eq_div]; norm_num, pyTrunc_zero]
  omega

theorem receivedOf_eq_floor {count : Int} (h : 0 ≤ count) (loss : Nat) :
    receivedOf count loss = count - ⌊(count : ℚ) * (loss : ℚ) / 100⌋ := by
  unfold receivedOf
  rw [pyTrunc_of_nonneg (mkRat_count_loss_nonneg h loss)]
  have hq : mkRat (count * loss) 100 = (count : ℚ) * (loss : ℚ) / 100 := by
    rw [Rat.mkRat_eq_div]
    push_cast
    ring
  rw [hq]
  rfl

theorem baseVal_ten_digit {c : Char} (h : isDig c = true) : baseVal 10 c = some (digitVal c) := by
  unfold baseVal
  rw [if_pos h, if_pos (isDig_digitVal_lt h)]

theorem takeBase_ten (ds : List Char) : ∀ (rest : List Char) (acc : Nat),
    (∀ c ∈ ds, isDig c = true) → (rest = [] ∨ ∃ r', rest = '.' :: r') →
    takeBase 10 acc (ds ++ rest) = (ds.foldl (fun a c => 10 * a + digitVal c) acc, rest) := by
  induction ds with
  | nil =>
    intro rest acc _ hr
    rcases hr with h | ⟨r', h⟩ <;> subst h
    · rfl
    · simp [takeBase, show baseVal 10 '.' = none from by decide]
  | cons d ds ih =>
    intro rest acc hd hr
    simp only [List.cons_append, takeBase, baseVal_ten_digit (hd d (by simp)),
      List.foldl_cons]
    rw [show acc * 10 + digitVal d = 10 * acc + digitVal d from by ring]
    exact ih rest _ (fun c hc => hd c (by simp [hc])) hr

theorem parseCPart_render (v : Nat) (rest : List Char)
    (hr : rest = [] ∨ ∃ r', rest = '.' :: r') :
    parseCPart (natToStr v ++ rest) = some (v, rest) := by
  by_cases h0 : v = 0
  · subst h0
    rw [show natToStr 0 = ['0'] from rfl]
    rcases hr with h | ⟨r', h⟩ <;> subst h
    · rfl
    · simp [parseCPart, takeBase, show baseVal 8 '.' = none from by decide]
  · have h1 : 1 ≤ v := by omega
    cases hh : natToStr v with
    | nil => exact absurd hh (natToStr_ne_nil v)
    | cons c t =>
      obtain ⟨hcd, hcz⟩ := natToStr_head h1 hh
      have hall : ∀ x ∈ t, isDig x = true := fun x hx =>
        natToStr_digits x (by rw [hh]; simp [hx])
      simp only [List.cons_append, parseCPart]
      rw [if_neg hcz, if_pos hcd, takeBase_ten t rest (digitVal c) hall hr]
      have hv : t.foldl (fun a x => 10 * a + digitVal x) (digitVal c) = v := by
        have hdv := natToStr_val v
        rw [hh] at hdv
        simpa [digitsVal, List.foldl_cons] using hdv
      rw [hv]

theorem inetGo_render (a b c d : Nat) :
    inetGo 4 (natToStr a ++ '.' :: (natToStr b ++ '.' :: (natToStr c ++ '.' :: natToStr d)))
      = some [a, b, c, d] := by
  have s4 : inetGo 4 (natToStr a ++ '.' :: (natToStr b ++ '.' :: (natToStr c ++ '.' :: natToStr d)))
      = (inetGo 3 (natToStr b ++ '.' :: (natToStr c ++ '.' :: natToStr d))).map (fun vs => a :: vs) := by
    simp only [inetGo, parseCPart_render a _ (Or.inr ⟨_, rfl⟩)]
  have s3 : inetGo 3 (natToStr b ++ '.' :: (natToStr c ++ '.' :: natToStr d))
      = (inetGo 2 (natToStr c ++ '.' :: natToStr d)).map (fun vs => b :: vs) := by
    simp only [inetGo, parseCPart_render b _ (Or.inr ⟨_, rfl⟩)]
  have s2 : inetGo 2 (natToStr c ++ '.' :: natToStr d)
      = (inetGo 1 (natToStr d)).map (fun vs => c :: vs) := by
    simp only [inetGo, parseCPart_render c _ (Or.inr ⟨_, rfl⟩)]
  have s1 : inetGo 1 (natToStr d) = some [d] := by
    have := parseCPart_render d [] (Or.inl rfl)
    rw [List.append_nil] at this
    simp only [inetGo, this]
  rw [s4, s3, s2, s1]
  rfl

theorem inetAton_render {a b c d : Nat} (ha : a ≤ 255) (hb : b ≤ 255) (hc : c ≤ 255)
    (hd : d ≤ 255) :
    inetAtonOk (natToStr a ++ '.' :: (natToStr b ++ '.' :: (natToStr c ++ '.' :: natToStr d)))
      = true := by
  unfold inetAtonOk
  rw [inetGo_render]
  simp [ha, hb, hc, hd]

theorem hasNullChar_quad (a b c d : Nat) :
    hasNullChar (natToStr a ++ '.' ::
      (natToStr b ++ '.' :: (natToStr c ++ '.' :: natToStr d))) = false := by
  rw [Bool.eq_false_iff]
  intro h
  rw [hasNullChar, List.any_eq_true] at h
  obtain ⟨c0, hmem, hc0⟩ := h
  rw [beq_iff_eq] at hc0
  simp only [List.mem_append, List.mem_cons] at hmem
  have hdig : isDig c0 = true ∨ c0 = '.' := by
    rcases hmem with h | h | h | h | h | h | h
    · exact Or.inl (natToStr_digits c0 h)
    · exact Or.inr h
    · exact Or.inl (natToStr_digits c0 h)
    · exact Or.inr h
    · exact Or.inl (natToStr_digits c0 h)
    · exact Or.inr h
    · exact Or.inl (natToStr_digits c0 h)
  rcases hdig with h | h
  · simp only [isDig, Bool.and_eq_true, decide_eq_true_eq] at h
    omega
  · subst h
    exact absurd hc0 (by decide)

/-! Claim theorems. -/

/-- Claim C1, as stated, is false on the code: an OS-level spawn error such
as `FileNotFoundError` (command not found) is not caught — `ping` and
`traceroute` only catch `subprocess.TimeoutExpired` — so it propagates as
an exception to the caller instead of degrading to the full-loss /
empty-result outcome. -/
theorem C1_counterexample :
    ping Sys.linux (ExecResult.spawnError "FileNotFoundError") "8.8.8.8" 4 "t"
      = Except.error "FileNotFoundError" ∧
    traceroute Sys.linux (ExecResult.spawnError "FileNotFoundError")
      = Except.error "FileNotFoundError" :=
  ⟨rfl, rfl⟩

/-- Claim C1 amended: for every host and probe type, a non-zero exit of the
command degrades to the full-loss (ping) outcome without parsing, and
exceeding the wall-clock ceiling degrades to the full-loss (ping) or
empty-result (traceroute) outcome; but an OS-level spawn error (command
not found) propagates as an exception to the caller of `ping` /
`traceroute`. -/
theorem C1_amended (sys : Sys) (host now : String) (count : Int) (out : String) (rc : Int) :
    (rc ≠ 0 → ping sys (ExecResult.completed out rc) host count now
      = Except.ok (degradedPing host count now)) ∧
    ping sys ExecResult.timedOut host count now = Except.ok (degradedPing host count now) ∧
    traceroute sys ExecResult.timedOut = Except.ok [] ∧
    (∀ msg, ping sys (ExecResult.spawnError msg) host count now = Except.error msg) ∧
    (∀ msg, traceroute sys (ExecResult.spawnError msg) = Except.error msg) := by
  refine ⟨?_, rfl, rfl, fun msg => rfl, fun msg => rfl⟩
  intro h
  simp [ping, h]

/-- Witness for the amended claim C1 at a concrete non-zero exit. -/
theorem C1_witness :
    ping Sys.linux (ExecResult.completed "" 1) "8.8.8.8" 4 "t"
      = Except.ok (degradedPing "8.8.8.8" 4 "t") :=
  (C1_amended Sys.linux "8.8.8.8" "t" 4 "" 1).1 (by decide)

/-- Claim C2: whenever the ping subprocess exits non-zero, or exceeds the
30-second wall-clock ceiling, or output parsing raises an exception (on the
Unix-like path; the Windows parse block contains no raising operation),
`ping` returns the outcome with `packet_loss = 100.0`,
`packets_received = 0`, all round-trip fields `0.0` and
`packets_transmitted = count`. -/
theorem C2_ping_failure_outcome (sys : Sys) (host now : String) (count : Int)
    (out : String) (rc : Int) :
    (rc ≠ 0 → ping sys (ExecResult.completed out rc) host count now = Except.ok
      { host := host, packets_transmitted := count, packets_received := 0,
        packet_loss := 100, min_ms := 0, avg_ms := 0, max_ms := 0, timestamp := now }) ∧
    (ping sys ExecResult.timedOut host count now = Except.ok
      { host := host, packets_transmitted := count, packets_received := 0,
        packet_loss := 100, min_ms := 0, avg_ms := 0, max_ms := 0, timestamp := now }) ∧
    (pingLinuxNumbers out.data = none →
      ping Sys.linux (ExecResult.completed out 0) host count now = Except.ok
        { host := host, packets_transmitted := count, packets_received := 0,
          packet_loss := 100, min_ms := 0, avg_ms := 0, max_ms := 0, timestamp := now }) := by
  refine ⟨?_, rfl, ?_⟩
  · intro h
    simp [ping, h, degradedPing]
  · intro h
    simp [ping, parse_ping_linux, h, degradedPing]

/-- Witness for claim C2: a parse failure (Spanish-locale loss line makes
the Unix parse block raise `TypeError`) yields the degraded outcome. -/
theorem C2_witness :
    ping Sys.linux (ExecResult.completed "x 25% perdidos" 0) "8.8.8.8" 4 "t" = Except.ok
      { host := "8.8.8.8", packets_transmitted := 4, packets_received := 0,
        packet_loss := 100, min_ms := 0, avg_ms := 0, max_ms := 0, timestamp := "t" } :=
  (C2_ping_failure_outcome Sys.linux "8.8.8.8" "t" 4 "x 25% perdidos" 0).2.2 (by decide)

/-- Claim C4 describes the intended dual-locale loss grammar, and `LOSS_RE`
indeed captures the percentage before `packet loss` or before `perdidos`;
the Windows parser extracts either group.  The Unix parser however reads
only capture group 1 (`float(loss_match.group(1))`), which is `None`
whenever the Spanish alternative matched, so `float(None)` raises
`TypeError` and the whole parse degrades to the full-loss outcome instead
of extracting the percentage: the code contradicts the evident intent of
its own `LOSS_RE`. -/
theorem C4_spanish_loss_code_bug :
    lossSearch "4 packets transmitted, 1 received, 75% perdidos, time 3ms".data
      = some (LossAlt.perdidos, 75) ∧
    (parse_ping_windows "4 packets transmitted, 1 received, 75% perdidos, time 3ms"
      "8.8.8.8" 4 "t").packet_loss = 75 ∧
    parse_ping_linux "4 packets transmitted, 1 received, 75% perdidos, time 3ms"
      "8.8.8.8" 4 "t" = degradedPing "8.8.8.8" 4 "t" ∧
    (degradedPing "8.8.8.8" 4 "t").packet_loss = 100 := by
  refine ⟨by decide, by decide, by decide, by decide⟩

/-- Claim C5: whenever `PING_RE_WINDOWS` matches with groups
`(a, b, c)` — in source order Minimum, Maximum, Average — the parsed
outcome assigns `min_ms = a`, `avg_ms = c`, `max_ms = b`: the groups are
reassigned into their output roles correctly. -/
theorem C5_windows_rtt_reassignment (out host now : String) (count : Int) (a b c : Nat)
    (h : searchPingWindows out.data = some (a, b, c)) :
    (parse_ping_windows out host count now).min_ms = (a : ℚ) ∧
    (parse_ping_windows out host count now).avg_ms = (c : ℚ) ∧
    (parse_ping_windows out host count now).max_ms = (b : ℚ) := by
  unfold parse_ping_windows pingWindowsNumbers
  rw [h]
  simp

/-- Witness for claim C5 at a concrete Windows statistics line. -/
theorem C5_witness :
    (parse_ping_windows "Minimum = 10ms, Maximum = 30ms, Average = 20ms" "h" 4 "t").min_ms
      = (10 : ℚ) ∧
    (parse_ping_windows "Minimum = 10ms, Maximum = 30ms, Average = 20ms" "h" 4 "t").avg_ms
      = (20 : ℚ) ∧
    (parse_ping_windows "Minimum = 10ms, Maximum = 30ms, Average = 20ms" "h" 4 "t").max_ms
      = (30 : ℚ) :=
  C5_windows_rtt_reassignment "Minimum = 10ms, Maximum = 30ms, Average = 20ms"
    "h" "t" 4 10 30 20 (by decide)

/-- Claim C9, as stated, is false on the code: the ping parsers embed
`datetime.now().isoformat()` in the result, so parsing the same raw output
twice yields results that differ in the `timestamp` field whenever the two
calls observe different clock values — the ping parsers are not pure. -/
theorem C9_counterexample :
    parse_ping_linux "" "8.8.8.8" 4 "2024-05-01T10:00:00.000001"
      ≠ parse_ping_linux "" "8.8.8.8" 4 "2024-05-01T10:00:00.000002" := by
  decide

/-- Claim C9 amended: the parsers are deterministic functions of the raw
output and the observed clock value; parses at the same instant are
identical, parses at different instants agree on every clock-free field,
and the traceroute parsers (which embed no timestamp) are fully pure. -/
theorem C9_amended (out host : String) (count : Int) (t1 t2 : String) :
    clockFreePart (parse_ping_linux out host count t1)
      = clockFreePart (parse_ping_linux out host count t2) ∧
    clockFreePart (parse_ping_windows out host count t1)
      = clockFreePart (parse_ping_windows out host count t2) ∧
    parse_ping_linux out host count t1 = parse_ping_linux out host count t1 ∧
    parse_ping_windows out host count t1 = parse_ping_windows out host count t1 ∧
    parse_traceroute_linux out = parse_traceroute_linux out ∧
    parse_traceroute_windows out = parse_traceroute_windows out := by
  refine ⟨?_, ?_, rfl, rfl, rfl, rfl⟩
  · unfold parse_ping_linux
    cases h : pingLinuxNumbers out.data with
    | none => rfl
    | some r =>
      obtain ⟨mn, av, mx, loss⟩ := r
      rfl
  · unfold parse_ping_windows
    rcases pingWindowsNumbers out.data with ⟨mn, mx, av, loss⟩
    rfl

/-- Claim C3, as stated, is false on the code on two counts: `is_valid_host`
accepts via `socket.inet_aton`, whose numbers-and-dots notation is strictly
wider than the dotted-quad textual form `a.b.c.d` — the abbreviated
literal `127.1` is accepted by the code but matches neither the
dotted-quad form nor the domain shape of the claim — and the function does
not return `false` on every non-matching input: on a host with an embedded
null character `socket.inet_aton` raises `ValueError`, which the
`except socket.error` clause does not catch, so the function raises. -/
theorem C3_counterexample :
    (is_valid_host "127.1" = Except.ok true ∧ specValidHost "127.1".data = false) ∧
    is_valid_host (String.mk ['h', '\x00', 's']) = Except.error "ValueError" :=
  ⟨⟨rfl, by decide⟩, rfl⟩

/-- Claim C3 amended: `is_valid_host` accepts every canonically rendered
dotted-quad `a.b.c.d` with octets 0–255 (and, more widely, everything
`inet_aton` accepts, including abbreviated forms such as `127.1` and
trailing-whitespace forms such as `1.2.3.4 `) or any string of the coarse
domain shape, and the four cited examples evaluate as claimed; but the
function is not total: on a host with an embedded null character it raises
`ValueError` (uncaught, since only `socket.error` is handled), while on
null-free non-matching input it returns `false`. -/
theorem C3_amended :
    (∀ a b c d : Nat, a ≤ 255 → b ≤ 255 → c ≤ 255 → d ≤ 255 →
      is_valid_host (String.mk (natToStr a ++ '.' ::
        (natToStr b ++ '.' :: (natToStr c ++ '.' :: natToStr d)))) = Except.ok true) ∧
    (∀ host : String, hasNullChar host.data = true →
      is_valid_host host = Except.error "ValueError") ∧
    is_valid_host "999.1.1.1" = Except.ok false ∧
    is_valid_host "8.8.8.8" = Except.ok true ∧
    is_valid_host "not_a_domain" = Except.ok false ∧
    is_valid_host "example.com" = Except.ok true ∧
    is_valid_host "127.1" = Except.ok true ∧
    is_valid_host "1.2.3.4 " = Except.ok true := by
  refine ⟨?_, ?_, rfl, rfl, rfl, rfl, rfl, rfl⟩
  · intro a b c d ha hb hc hd
    unfold is_valid_host
    rw [show (String.mk (natToStr a ++ '.' ::
        (natToStr b ++ '.' :: (natToStr c ++ '.' :: natToStr d)))).data
      = natToStr a ++ '.' :: (natToStr b ++ '.' :: (natToStr c ++ '.' :: natToStr d)) from rfl]
    rw [if_neg (by rw [hasNullChar_quad]; exact Bool.false_ne_true),
      if_pos (inetAton_render ha hb hc hd)]
  · intro host h
    unfold is_valid_host
    rw [if_pos h]

/-- Witness for the amended claim C3: a concrete dotted quad is accepted
and a concrete null-containing host raises. -/
theorem C3_witness :
    is_valid_host (String.mk (natToStr 192 ++ '.' ::
      (natToStr 0 ++ '.' :: (natToStr 2 ++ '.' :: natToStr 255)))) = Except.ok true ∧
    is_valid_host (String.mk ['a', '\x00', 'b']) = Except.error "ValueError" :=
  ⟨C3_amended.1 192 0 2 255 (by decide) (by decide) (by decide) (by decide),
   C3_amended.2.1 (String.mk ['a', '\x00', 'b']) (by decide)⟩

/-- Claim C6, as stated, is false on the code: `count` is an unconstrained
Python `int`, and on a failure path with a negative `count` the degraded
outcome has `packets_received = 0 > count = packets_transmitted`, so
`packets_received ≤ packets_transmitted` fails. -/
theorem C6_counterexample :
    ping Sys.linux (ExecResult.completed "" 1) "8.8.8.8" (-1) "t"
      = Except.ok (degradedPing "8.8.8.8" (-1) "t") ∧
    (degradedPing "8.8.8.8" (-1) "t").packets_received = 0 ∧
    (degradedPing "8.8.8.8" (-1) "t").packets_transmitted = -1 ∧
    ¬((degradedPing "8.8.8.8" (-1) "t").packets_received
      ≤ (degradedPing "8.8.8.8" (-1) "t").packets_transmitted) :=
  ⟨rfl, rfl, rfl, by decide⟩

/-- Claim C6 amended: for nonnegative `count`, every outcome returned by
`ping` (any path, any platform) satisfies `packets_received ≤
packets_transmitted = count`, with `packets_received = count` whenever the
parsed `packet_loss` is `0.0`, and on successful parses `packets_received
= count - floor(count * loss / 100)` (Python's `int()` truncation agrees
with the floor because both operands are nonnegative). -/
theorem C6_amended (sys : Sys) (exec : ExecResult) (host now : String) (count : Int)
    (hcnt : 0 ≤ count) :
    (∀ r, ping sys exec host count now = Except.ok r →
      r.packets_transmitted = count ∧
      r.packets_received ≤ r.packets_transmitted ∧
      (r.packet_loss = 0 → r.packets_received = count)) ∧
    (∀ (out : String) (mn av mx : ℚ) (loss : Nat),
      pingLinuxNumbers out.data = some (mn, av, mx, loss) →
      (parse_ping_linux out host count now).packets_received
        = count - ⌊(count : ℚ) * (loss : ℚ) / 100⌋) ∧
    (∀ out : String, (parse_ping_windows out host count now).packets_received
      = count - ⌊(count : ℚ) * (parse_ping_windows out host count now).packet_loss / 100⌋) := by
  have hdeg : (degradedPing host count now).packets_transmitted = count ∧
      (degradedPing host count now).packets_received
        ≤ (degradedPing host count now).packets_transmitted ∧
      ((degradedPing host count now).packet_loss = 0 →
        (degradedPing host count now).packets_received = count) := by
    refine ⟨rfl, by simpa [degradedPing] using hcnt, ?_⟩
    intro habs
    exact absurd habs (by norm_num [degradedPing])
  have hwin : ∀ out : String,
      (parse_ping_windows out host count now).packets_transmitted = count ∧
      (∃ loss : Nat,
        (parse_ping_windows out host count now).packets_received = receivedOf count loss ∧
        (parse_ping_windows out host count now).packet_loss = (loss : ℚ)) := by
    intro out
    unfold parse_ping_windows
    rcases pingWindowsNumbers out.data with ⟨mn, mx, av, loss⟩
    exact ⟨rfl, loss, rfl, rfl⟩
  have hlin : ∀ out : String,
      parse_ping_linux out host count now = degradedPing host count now ∨
      ((parse_ping_linux out host count now).packets_transmitted = count ∧
      ∃ loss : Nat,
        (parse_ping_linux out host count now).packets_received = receivedOf count loss ∧
        (parse_ping_linux out host count now).packet_loss = (loss : ℚ)) := by
    intro out
    unfold parse_ping_linux
    cases h : pingLinuxNumbers out.data with
    | none => exact Or.inl rfl
    | some r =>
      obtain ⟨mn, av, mx, loss⟩ := r
      exact Or.inr ⟨rfl, loss, rfl, rfl⟩
  refine ⟨?_, ?_, ?_⟩
  · intro r h
    cases exec with
    | spawnError msg => simp [ping] at h
    | timedOut =>
      simp only [ping] at h
      injection h with h'
      rw [← h']
      exact hdeg
    | completed out rc =>
      simp only [ping] at h
      by_cases hrc : rc ≠ 0
      · rw [if_pos hrc] at h
        injection h with h'
        rw [← h']
        exact hdeg
      · rw [if_neg hrc] at h
        cases sys with
        | windows =>
          injection h with h'
          rw [← h']
          obtain ⟨htr, loss, hre, hpl⟩ := hwin out
          rw [htr, hre, hpl]
          refine ⟨rfl, receivedOf_le hcnt loss, ?_⟩
          intro h0
          have hl : loss = 0 := by exact_mod_cast h0
          rw [hl, receivedOf_zero]
        | linux =>
          injection h with h'
          rw [← h']
          rcases hlin out with hcase | ⟨htr, loss, hre, hpl⟩
          · rw [hcase]; exact hdeg
          · rw [htr, hre, hpl]
            refine ⟨rfl, receivedOf_le hcnt loss, ?_⟩
            intro h0
            have hl : loss = 0 := by exact_mod_cast h0
            rw [hl, receivedOf_zero]
  · intro out mn av mx loss hnum
    unfold parse_ping_linux
    rw [hnum]
    exact receivedOf_eq_floor hcnt loss
  · intro out
    unfold parse_ping_windows
    rcases pingWindowsNumbers out.data with ⟨mn, mx, av, loss⟩
    exact receivedOf_eq_floor hcnt loss

/-- Witness for the amended claim C6 at a concrete successful Unix parse
with 25 percent loss. -/
theorem C6_witness :
    (parse_ping_linux "rtt min/avg/max/mdev = 0.1/0.2/0.3/0.0 ms\n4 received, 25% packet loss"
      "8.8.8.8" 4 "t").packets_received = 4 - ⌊(4 : ℚ) * (25 : ℚ) / 100⌋ :=
  (C6_amended Sys.linux (ExecResult.completed "" 0) "8.8.8.8" "t" 4 (by decide)).2.1
    "rtt min/avg/max/mdev = 0.1/0.2/0.3/0.0 ms\n4 received, 25% packet loss"
    (mkRat 1 10) (mkRat 2 10) (mkRat 3 10) 25 (by decide)

theorem parseTraceTokensLinux_cons (p0 p1 : List Char) (rest : List (List Char)) :
    parseTraceTokensLinux (p0 :: p1 :: rest) = (do
      let hopNo ← pyInt p0
      if p1 = "*".data then
        pure { hop := hopNo, host := "timeout", rtt_ms := none }
      else
        match rest with
        | [] => pure { hop := hopNo, host := String.mk p1, rtt_ms := none }
        | p2 :: _ => do
          let r ← pyFloat p2
          pure { hop := hopNo, host := String.mk p1, rtt_ms := some r }) := rfl

theorem parseTraceTokensLinux_nil : parseTraceTokensLinux [] = none := rfl

theorem parseTraceTokensLinux_single (p0 : List Char) :
    parseTraceTokensLinux [p0] = none := rfl

theorem parseTraceTokensWindows_cons (line p0 : List Char) (tail : List (List Char)) :
    parseTraceTokensWindows line (p0 :: tail) = (do
      let hopNo ← pyInt p0
      match findIpv4 line with
      | some ip =>
        pure { hop := hopNo, host := String.mk ip,
               rtt_ms := (findRttWin line).map (fun n => (n : ℚ)) }
      | none => pure { hop := hopNo, host := "timeout", rtt_ms := none }) := rfl

theorem parseTraceTokensWindows_nil (line : List Char) :
    parseTraceTokensWindows line [] = none := rfl

theorem traceTokensLinux_star {p0 p1 : List Char} {rest : List (List Char)} {n : Int}
    (hint : pyInt p0 = some n) (hstar : p1 = "*".data) :
    parseTraceTokensLinux (p0 :: p1 :: rest)
      = some { hop := n, host := "timeout", rtt_ms := none } := by
  rw [parseTraceTokensLinux_cons, hint]
  simp [hstar]

theorem traceTokensLinux_two {p0 p1 : List Char} {n : Int}
    (hint : pyInt p0 = some n) (hp1 : p1 ≠ "*".data) :
    parseTraceTokensLinux [p0, p1]
      = some { hop := n, host := String.mk p1, rtt_ms := none } := by
  rw [parseTraceTokensLinux_cons, hint]
  simp [hp1]

theorem traceTokensLinux_three {p0 p1 p2 : List Char} {rest' : List (List Char)}
    {n : Int} {q : ℚ} (hint : pyInt p0 = some n) (hp1 : p1 ≠ "*".data)
    (hq : pyFloat p2 = some q) :
    parseTraceTokensLinux (p0 :: p1 :: p2 :: rest')
      = some { hop := n, host := String.mk p1, rtt_ms := some q } := by
  rw [parseTraceTokensLinux_cons, hint]
  simp [hp1, hq]

theorem traceTokensLinux_three_badfloat {p0 p1 p2 : List Char} {rest' : List (List Char)}
    {n : Int} (hint : pyInt p0 = some n) (hp1 : p1 ≠ "*".data)
    (hq : pyFloat p2 = none) :
    parseTraceTokensLinux (p0 :: p1 :: p2 :: rest') = none := by
  rw [parseTraceTokensLinux_cons, hint]
  simp [hp1, hq]

theorem traceTokensLinux_badint {p0 p1 : List Char} {rest : List (List Char)}
    (hint : pyInt p0 = none) :
    parseTraceTokensLinux (p0 :: p1 :: rest) = none := by
  rw [parseTraceTokensLinux_cons, hint]
  rfl

theorem traceTokensWindows_ip {line p0 : List Char} {tail : List (List Char)} {n : Int}
    {ip : List Char} (hint : pyInt p0 = some n) (hip : findIpv4 line = some ip) :
    parseTraceTokensWindows line (p0 :: tail)
      = some { hop := n, host := String.mk ip,
               rtt_ms := (findRttWin line).map (fun k => (k : ℚ)) } := by
  rw [parseTraceTokensWindows_cons, hint]
  simp [hip]

theorem traceTokensWindows_noip {line p0 : List Char} {tail : List (List Char)} {n : Int}
    (hint : pyInt p0 = some n) (hip : findIpv4 line = none) :
    parseTraceTokensWindows line (p0 :: tail)
      = some { hop := n, host := "timeout", rtt_ms := none } := by
  rw [parseTraceTokensWindows_cons, hint]
  simp [hip]

theorem traceTokensWindows_badint {line p0 : List Char} {tail : List (List Char)}
    (hint : pyInt p0 = none) :
    parseTraceTokensWindows line (p0 :: tail) = none := by
  rw [parseTraceTokensWindows_cons, hint]
  rfl

/-- Claim C7: the Unix traceroute parser skips the header line; for each
remaining line whose whitespace split has at least two tokens and whose
first token parses as an integer, a `*` second token yields the timeout
sentinel with absent round-trip time, otherwise the second token is the
host and the third token, when present, parses as the round-trip time
(absent with only two tokens); lines whose hop number or round-trip token
fails to parse are silently skipped; and the two cited example lines parse
as stated (23.4 is the rational 234/10). -/
theorem C7_traceroute_linux_grammar :
    (∀ (line p0 p1 : List Char) (rest : List (List Char)) (n : Int),
      pySplit line = p0 :: p1 :: rest → pyInt p0 = some n →
      (p1 = "*".data →
        parseTraceLineLinux line = some { hop := n, host := "timeout", rtt_ms := none }) ∧
      (p1 ≠ "*".data → rest = [] →
        parseTraceLineLinux line = some { hop := n, host := String.mk p1, rtt_ms := none }) ∧
      (∀ (p2 : List Char) (rest' : List (List Char)) (q : ℚ), p1 ≠ "*".data →
        rest = p2 :: rest' → pyFloat p2 = some q →
        parseTraceLineLinux line = some { hop := n, host := String.mk p1, rtt_ms := some q })) ∧
    (∀ (line p0 p1 : List Char) (rest : List (List Char)),
      pySplit line = p0 :: p1 :: rest → pyInt p0 = none →
      parseTraceLineLinux line = none) ∧
    (∀ h b : String, '\n' ∉ h.data →
      parse_traceroute_linux (h ++ "\n" ++ b)
        = (splitlinesL b.data).filterMap parseTraceLineLinux) ∧
    parse_traceroute_linux "hdr\n3 * " = [{ hop := 3, host := "timeout", rtt_ms := none }] ∧
    parse_traceroute_linux "hdr\n5 192.0.2.1 23.4 ms"
      = [{ hop := 5, host := "192.0.2.1", rtt_ms := some (mkRat 234 10) }] := by
  refine ⟨?_, ?_, ?_, by decide, by decide⟩
  · intro line p0 p1 rest n hsplit hint
    have hne := pySplit_ne_nil_strip hsplit
    refine ⟨?_, ?_, ?_⟩
    · intro hstar
      unfold parseTraceLineLinux
      rw [if_neg (by simp [hne]), hsplit, parseTraceTokensLinux_cons, hint]
      simp [hstar]
    · intro hp1 hrest
      subst hrest
      unfold parseTraceLineLinux
      rw [if_neg (by simp [hne]), hsplit, parseTraceTokensLinux_cons, hint]
      simp [hp1]
    · intro p2 rest' q hp1 hrest hq
      subst hrest
      unfold parseTraceLineLinux
      rw [if_neg (by simp [hne]), hsplit, parseTraceTokensLinux_cons, hint]
      simp [hp1, hq]
  · intro line p0 p1 rest hsplit hint
    have hne := pySplit_ne_nil_strip hsplit
    unfold parseTraceLineLinux
    rw [if_neg (by simp [hne]), hsplit, parseTraceTokensLinux_cons, hint]
    rfl
  · intro h b hn
    unfold parse_traceroute_linux
    have hd : (h ++ "\n" ++ b).data = h.data ++ '\n' :: b.data := by
      have h1 : (h ++ "\n" ++ b).data = (h.data ++ ['\n']) ++ b.data := rfl
      rw [h1, List.append_assoc]
      rfl
    rw [hd, splitlinesL_header hn]
    simp

/-- Witness for claim C7 at concrete star and round-trip lines. -/
theorem C7_witness :
    parseTraceLineLinux "3 * ".data = some { hop := 3, host := "timeout", rtt_ms := none } ∧
    parseTraceLineLinux "5 192.0.2.1 23.4".data
      = some { hop := 5, host := String.mk "192.0.2.1".data, rtt_ms := some (mkRat 234 10) } := by
  constructor
  · exact (C7_traceroute_linux_grammar.1 "3 * ".data "3".data "*".data [] 3
      (by decide) (by decide)).1 rfl
  · exact (C7_traceroute_linux_grammar.1 "5 192.0.2.1 23.4".data "5".data "192.0.2.1".data
      ["23.4".data] 5 (by decide) (by decide)).2.2 "23.4".data [] (mkRat 234 10)
      (by decide) rfl (by decide)

/-- Claim C8, as stated, is false on the code: the Unix traceroute parser
uses `int(parts[0])` with no lower-bound check, so a line whose first
token is `0` (or negative) produces a hop with hop number below 1. -/
theorem C8_counterexample :
    parse_traceroute_linux "hdr\n0 1.2.3.4 1.0"
      = [{ hop := 0, host := "1.2.3.4", rtt_ms := some 1 }] ∧
    ¬(1 ≤ ({ hop := 0, host := "1.2.3.4", rtt_ms := some 1 } : TraceHop).hop) :=
  ⟨by decide, by decide⟩

/-- Claim C8 amended: the Windows parser does guarantee hop numbers at
least 1 on every input — its line filter demands that the stripped line
start with the decimal rendering of the 1-based line index, so the first
token begins with a nonzero digit and its `int(...)` value is at least 1;
the Unix parser emits whatever integer the first token parses to. -/
theorem C8_amended (output : String) :
    ∀ hop ∈ parse_traceroute_windows output, 1 ≤ hop.hop := by
  intro hop hmem
  unfold parse_traceroute_windows at hmem
  obtain ⟨⟨i, line⟩, _, heq⟩ := List.mem_filterMap.mp hmem
  dsimp only at heq
  unfold parseTraceLineWindows at heq
  by_cases hsw : headMatches (natToStr (i + 1)) (pyStrip line) = true
  swap
  · rw [if_neg hsw] at heq
    exact absurd heq (by simp)
  rw [if_pos hsw] at heq
  cases hns : natToStr (i + 1) with
  | nil => exact absurd hns (natToStr_ne_nil _)
  | cons c ds =>
    obtain ⟨hcd, hcz⟩ := natToStr_head (by omega) hns
    rw [hns] at hsw
    obtain ⟨t0, ht0⟩ := headMatches_exists hsw
    obtain ⟨t1, ht1, _⟩ := dropWhile_eq_strip_append line
    rw [ht0] at ht1
    have hdw : line.dropWhile isPySpace = c :: ((ds ++ t0) ++ t1) := by
      rw [ht1]; simp
    have hsplit := pySplit_head_token hdw (isDig_not_pySpace hcd)
    rw [hsplit] at heq
    have htoknospace : ∀ x ∈ ((ds ++ t0) ++ t1).takeWhile (fun x => !isPySpace x),
        isPySpace x = false := by
      intro x hx
      have := List.mem_takeWhile_imp hx
      simpa using this
    cases hpi : pyInt (c :: ((ds ++ t0) ++ t1).takeWhile (fun x => !isPySpace x)) with
    | none =>
      rw [traceTokensWindows_badint hpi] at heq
      exact absurd heq (by simp)
    | some m =>
      have h1m : 1 ≤ m := pyInt_head_pos hcd hcz htoknospace hpi
      cases hip : findIpv4 line with
      | some ip =>
        rw [traceTokensWindows_ip hpi hip] at heq
        injection heq with heq2
        rw [← heq2]
        exact h1m
      | none =>
        rw [traceTokensWindows_noip hpi hip] at heq
        injection heq with heq2
        rw [← heq2]
        exact h1m

/-- Witness for the amended claim C8 at a concrete tracert data line. -/
theorem C8_witness :
    ({ hop := 1, host := "10.0.0.1", rtt_ms := some (5 : ℚ) } : TraceHop)
      ∈ parse_traceroute_windows "1 10.0.0.1 5 ms" ∧
    1 ≤ ({ hop := 1, host := "10.0.0.1", rtt_ms := some (5 : ℚ) } : TraceHop).hop := by
  constructor
  · decide
  · exact C8_amended "1 10.0.0.1 5 ms" _ (by decide)

/-- Claim C10, as stated, is false on the code: in the Unix parser the
sentinel check is only the comparison of the second token with `*`, so a
line whose second token is literally the word `timeout` produces a hop
whose host is the sentinel string while carrying a numeric round-trip
time. -/
theorem C10_counterexample :
    parse_traceroute_linux "hdr\n3 timeout 5.0"
      = [{ hop := 3, host := "timeout", rtt_ms := some 5 }] ∧
    ({ hop := 3, host := "timeout", rtt_ms := some (5 : ℚ) } : TraceHop).host = "timeout" ∧
    ({ hop := 3, host := "timeout", rtt_ms := some (5 : ℚ) } : TraceHop).rtt_ms ≠ none :=
  ⟨by decide, rfl, by decide⟩

/-- Claim C10 amended: in the Windows parser every hop whose host is the
sentinel `timeout` has an absent round-trip time (a found host is an
IPv4-shaped string, which starts with a digit and so is never the
sentinel); in the Unix parser a sentinel-host hop with a present
round-trip time can only arise from a line whose second whitespace token
is literally the string `timeout` — the star branch always produces an
absent round-trip time. -/
theorem C10_amended :
    (∀ (output : String), ∀ hop ∈ parse_traceroute_windows output,
      hop.host = "timeout" → hop.rtt_ms = none) ∧
    (∀ (line : List Char) (hop : TraceHop), parseTraceLineLinux line = some hop →
      hop.host = "timeout" → hop.rtt_ms ≠ none →
      ∃ p0 rest, pySplit line = p0 :: "timeout".data :: rest) := by
  constructor
  · intro output hop hmem hhost
    unfold parse_traceroute_windows at hmem
    obtain ⟨⟨i, line⟩, _, heq⟩ := List.mem_filterMap.mp hmem
    dsimp only at heq
    unfold parseTraceLineWindows at heq
    by_cases hsw : headMatches (natToStr (i + 1)) (pyStrip line) = true
    swap
    · rw [if_neg hsw] at heq
      exact absurd heq (by simp)
    rw [if_pos hsw] at heq
    cases hps : pySplit line with
    | nil =>
      rw [hps, parseTraceTokensWindows_nil] at heq
      exact absurd heq (by simp)
    | cons p0 rest =>
      rw [hps] at heq
      cases hpi : pyInt p0 with
      | none =>
        rw [traceTokensWindows_badint hpi] at heq
        exact absurd heq (by simp)
      | some m =>
        cases hip : findIpv4 line with
        | some ip =>
          rw [traceTokensWindows_ip hpi hip] at heq
          injection heq with heq2
          exfalso
          obtain ⟨c, t, hct, hcd⟩ := findIpv4_head hip
          rw [← heq2] at hhost
          have hip2 : ip = "timeout".data := congrArg String.data hhost
          rw [hct] at hip2
          rw [show "timeout".data = 't' :: "imeout".data from rfl] at hip2
          injection hip2 with h1 _
          subst h1
          exact absurd hcd (by decide)
        | none =>
          rw [traceTokensWindows_noip hpi hip] at heq
          injection heq with heq2
          rw [← heq2]
  · intro line hop heq hhost hrtt
    unfold parseTraceLineLinux at heq
    by_cases hne : (pyStrip line).isEmpty = true
    · rw [if_pos hne] at heq
      exact absurd heq (by simp)
    rw [if_neg hne] at heq
    cases hps : pySplit line with
    | nil =>
      rw [hps, parseTraceTokensLinux_nil] at heq
      exact absurd heq (by simp)
    | cons p0 rest0 =>
      cases rest0 with
      | nil =>
        rw [hps, parseTraceTokensLinux_single] at heq
        exact absurd heq (by simp)
      | cons p1 rest =>
        rw [hps] at heq
        cases hpi : pyInt p0 with
        | none =>
          rw [traceTokensLinux_badint hpi] at heq
          exact absurd heq (by simp)
        | some n =>
          by_cases hstar : p1 = "*".data
          · rw [traceTokensLinux_star hpi hstar] at heq
            injection heq with heq2
            rw [← heq2] at hrtt
            exact absurd rfl hrtt
          · cases rest with
            | nil =>
              rw [traceTokensLinux_two hpi hstar] at heq
              injection heq with heq2
              rw [← heq2] at hrtt
              exact absurd rfl hrtt
            | cons p2 rest' =>
              cases hq : pyFloat p2 with
              | none =>
                rw [traceTokensLinux_three_badfloat hpi hstar hq] at heq
                exact absurd heq (by simp)
              | some q =>
                rw [traceTokensLinux_three hpi hstar hq] at heq
                injection heq with heq2
                rw [← heq2] at hhost
                have hp1 : p1 = "timeout".data := congrArg String.data hhost
                exact ⟨p0, p2 :: rest', by rw [← hp1]⟩

/-- Witness for the amended claim C10: a concrete tracert timeout line
with absent round-trip time, and the concrete Unix line whose second token
is literally `timeout`. -/
theorem C10_witness :
    ({ hop := 1, host := "timeout", rtt_ms := none } : TraceHop).rtt_ms = none ∧
    (∃ p0 rest, pySplit "3 timeout 5.0".data = p0 :: "timeout".data :: rest) := by
  constructor
  · exact C10_amended.1 "1  *  *  *  Request timed out." _ (by decide) (by decide)
  · exact C10_amended.2 "3 timeout 5.0".data { hop := 3, host := "timeout", rtt_ms := some 5 }
      (by decide) (by decide) (by decide)
